import Mathlib

/-!
A verification development for the in-memory receipt query engine
(`backend/algorithms.py`): multi-predicate filtering, stable sorting and
aggregation over expense records.  Python numbers are idealised as `ℚ`
(floating point is not modelled; all arithmetic in the engine is
addition, division and comparison on values where this idealisation is
exact), Python `datetime.date` values are encoded as naturals, and
fallible code returns `Except PyErr`.
-/

/-- Errors that the Python code can raise out of the engine. -/
inductive PyErr where
  | typeError
  | zeroDivisionError
  deriving DecidableEq, Repr

/-- Decidable equality of `Except` results, for evaluating the engine on
concrete inputs. -/
instance {ε α : Type} [DecidableEq ε] [DecidableEq α] : DecidableEq (Except ε α) := fun a b =>
  match a, b with
  | .ok x, .ok y =>
    if h : x = y then isTrue (h ▸ rfl) else isFalse (fun hc => h (by cases hc; rfl))
  | .error x, .error y =>
    if h : x = y then isTrue (h ▸ rfl) else isFalse (fun hc => h (by cases hc; rfl))
  | .ok _, .error _ => isFalse (fun hc => by cases hc)
  | .error _, .ok _ => isFalse (fun hc => by cases hc)

/-- Floor of a rational: `Int.fdiv` of the numerator by the denominator
(floor division, since the denominator is positive). -/
def ratFloor (q : ℚ) : ℤ := Int.fdiv q.num q.den

/-- `round(x, 2)` idealised on `ℚ`: round to the nearest multiple of 1/100
(Python rounds floats half-to-even; the inputs used in this development
are never exact half-way cases, where this rounds half up). -/
def round2 (q : ℚ) : ℚ := ((ratFloor (q * 100 + 1 / 2) : ℤ) : ℚ) / 100

/-- Numeric value of a decimal digit character. -/
def digitVal (c : Char) : ℕ := c.toNat - 48

/-- Days in a month, as validated by `datetime.date` (proleptic Gregorian). -/
def daysInMonth (y m : ℕ) : ℕ :=
  if m = 2 then (if y % 4 = 0 ∧ (y % 100 ≠ 0 ∨ y % 400 = 0) then 29 else 28)
  else if m = 4 ∨ m = 6 ∨ m = 9 ∨ m = 11 then 30
  else 31

/-- The `%m` field of CPython `strptime`: regex `1[0-2]|0[1-9]|[1-9]`,
greedy with the alternatives tried in this order.  Returns the parsed
month and the remaining characters. -/
def parseMonthField : List Char → Option (ℕ × List Char)
  | a :: b :: rest =>
    if a = '1' ∧ '0' ≤ b ∧ b ≤ '2' then some (10 + digitVal b, rest)
    else if a = '0' ∧ '1' ≤ b ∧ b ≤ '9' then some (digitVal b, rest)
    else if '1' ≤ a ∧ a ≤ '9' then some (digitVal a, b :: rest)
    else none
  | [a] => if '1' ≤ a ∧ a ≤ '9' then some (digitVal a, []) else none
  | [] => none

/-- The `%d` field of CPython `strptime`: regex `3[01]|[12]\d|0[1-9]|[1-9]`. -/
def parseDayField : List Char → Option (ℕ × List Char)
  | a :: b :: rest =>
    if a = '3' ∧ '0' ≤ b ∧ b ≤ '1' then some (30 + digitVal b, rest)
    else if '1' ≤ a ∧ a ≤ '2' ∧ b.isDigit then some (10 * digitVal a + digitVal b, rest)
    else if a = '0' ∧ '1' ≤ b ∧ b ≤ '9' then some (digitVal b, rest)
    else if '1' ≤ a ∧ a ≤ '9' then some (digitVal a, b :: rest)
    else none
  | [a] => if '1' ≤ a ∧ a ≤ '9' then some (digitVal a, []) else none
  | [] => none

/-- The `%Y` field of CPython `strptime`: exactly four digits. -/
def parseYearField : List Char → Option (ℕ × List Char)
  | a :: b :: c :: d :: rest =>
    if a.isDigit ∧ b.isDigit ∧ c.isDigit ∧ d.isDigit then
      some (1000 * digitVal a + 100 * digitVal b + 10 * digitVal c + digitVal d, rest)
    else none
  | _ => none

/-- `datetime.strptime(s, "%Y-%m-%d")`: `none` models the raised
`ValueError` (format mismatch, trailing characters, or an invalid
calendar date rejected by the `datetime` constructor). -/
def strptimeYMD (s : String) : Option (ℕ × ℕ × ℕ) :=
  match parseYearField s.data with
  | none => none
  | some (y, rest1) =>
    match rest1 with
    | '-' :: rest2 =>
      match parseMonthField rest2 with
      | none => none
      | some (m, rest3) =>
        match rest3 with
        | '-' :: rest4 =>
          match parseDayField rest4 with
          | none => none
          | some (d, rest5) =>
            if rest5 = [] ∧ 1 ≤ y ∧ d ≤ daysInMonth y m then some (y, m, d) else none
        | _ => none
    | _ => none

/-- `datetime.strptime(s, "%Y-%m")`, used by the monthly aggregation. -/
def strptimeYM (s : String) : Option (ℕ × ℕ) :=
  match parseYearField s.data with
  | none => none
  | some (y, rest1) =>
    match rest1 with
    | '-' :: rest2 =>
      match parseMonthField rest2 with
      | none => none
      | some (m, rest3) => if rest3 = [] ∧ 1 ≤ y then some (y, m) else none
    | _ => none

/-- `re.match(r'\d{4}-\d{2}-\d{2}', value)`: the first ten characters have
the date shape (the pattern is not anchored at the end). -/
def dateShape (s : String) : Bool :=
  match s.data with
  | a :: b :: c :: d :: h1 :: e :: f :: h2 :: g :: h :: _ =>
    a.isDigit && b.isDigit && c.isDigit && d.isDigit && (h1 == '-') &&
      e.isDigit && f.isDigit && (h2 == '-') && g.isDigit && h.isDigit
  | _ => false

/-- Order-preserving encoding of a `datetime` date: comparison of encoded
dates agrees with `datetime` comparison since months and days are < 100. -/
def dateEnc : ℕ × ℕ × ℕ → ℕ
  | (y, m, d) => y * 10000 + m * 100 + d

/-- `datetime.min` (year 1, month 1, day 1). -/
def dateMinEnc : ℕ := dateEnc (1, 1, 1)

/-- A Python value that can appear in a record field used by the generic
range search: a string, a number, or a (parsed) date. -/
inductive PyVal where
  | str : String → PyVal
  | num : ℚ → PyVal
  | date : ℕ → PyVal
  deriving DecidableEq, Repr

/-- Python truthiness for the values above: `""` and `0` are falsy,
`datetime` objects are always truthy. -/
def PyVal.truthy : PyVal → Bool
  | .str s => s ≠ ""
  | .num q => q ≠ 0
  | .date _ => true

/-- Python `<` on these values: comparable within one kind, a `TypeError`
across kinds (e.g. `str` against `datetime`). -/
def pyLt : PyVal → PyVal → Except PyErr Bool
  | .str a, .str b => .ok (decide (a < b))
  | .num a, .num b => .ok (decide (a < b))
  | .date a, .date b => .ok (decide (a < b))
  | _, _ => .error .typeError

/-- One expense record, the dict built in `main.py` from a `Receipt` row.
`none` models an absent value.  `upload_date` is an encoded `datetime`. -/
structure Record where
  id : ℕ := 0
  file_name : Option String := none
  vendor : Option String := none
  date : Option String := none
  amount : Option ℚ := none
  category : Option String := none
  description : Option String := none
  upload_date : Option ℕ := none
  file_type : Option String := none
  file_size : Option ℕ := none
  status : Option String := none
  extracted_text : Option String := none
  confidence_score : Option ℚ := none
  deriving DecidableEq, Repr

/-- Truthiness of an optional string (`filters.get(...)` guards). -/
def truthyO (o : Option String) : Bool := o.getD "" ≠ ""

/-- `needle in hay` on Python strings (substring containment). -/
def strContains (hay ned : String) : Bool := go hay.data ned.data
where
  go : List Char → List Char → Bool
  | h, n => if n.isPrefixOf h then true else
      match h with
      | [] => false
      | _ :: t => go t n

namespace SearchAlgorithms

/-- `str(item.get(field, ''))` for the four searchable string fields
(the only fields `keyword_search` is invoked with). -/
def strGet (item : Record) (field : String) : String :=
  if field == "vendor" then item.vendor.getD ""
  else if field == "category" then item.category.getD ""
  else if field == "description" then item.description.getD ""
  else if field == "extracted_text" then item.extracted_text.getD ""
  else ""

/-- `SearchAlgorithms.keyword_search`: case-insensitive substring match of
the keyword against each listed field; a record is appended once as soon
as some field matches (`break`). -/
def keyword_search (data : List Record) (keyword : String) (fields : List String) :
    List Record :=
  let keyword_lower := keyword.toLower
  data.filter (fun item =>
    fields.any (fun field => strContains (strGet item field).toLower keyword_lower))

/-- The bound-conversion step of `range_search` for one bound: when the
bound is truthy and a string, `datetime.strptime` it (`.error ()` models
the raised `ValueError`); otherwise the bound is left unchanged. -/
def convBound : Option PyVal → Except Unit (Option PyVal)
  | none => .ok none
  | some v =>
    if v.truthy then
      match v with
      | .str s =>
        match strptimeYMD s with
        | some ymd => .ok (some (.date (dateEnc ymd)))
        | none => .error ()
      | _ => .ok (some v)
    else .ok (some v)

/-- The upper-bound comparison of `range_search`
(`max_val is not None and value > max_val`, i.e. `max_val < value`). -/
def rangeKeepMax (value : PyVal) (maxV : Option PyVal) : Except PyErr Bool :=
  match maxV with
  | none => .ok true
  | some m =>
    match pyLt m value with
    | .error e => .error e
    | .ok true => .ok false
    | .ok false => .ok true

/-- The two range comparisons of `range_search`: `.ok true` keeps the
record, `.ok false` skips it (`continue`), `.error` models a raised
`TypeError`. -/
def rangeKeep (value : PyVal) (minV maxV : Option PyVal) : Except PyErr Bool :=
  match minV with
  | none => rangeKeepMax value maxV
  | some m =>
    match pyLt value m with
    | .error e => .error e
    | .ok true => .ok false
    | .ok false => rangeKeepMax value maxV

/-- `SearchAlgorithms.range_search`, with the record field projected by
`getf`.  A string value matching the date regex is `strptime`d together
with the bounds inside one `try`: failure on the value, the min bound or
the max bound skips the record (`continue`), and a bound conversion that
did complete persists for later iterations (in Python `min_val` /
`max_val` are reassigned in place).  Cross-kind comparisons raise. -/
def range_search (data : List Record) (getf : Record → Option PyVal)
    (min_val max_val : Option PyVal) : Except PyErr (List Record) :=
  match data with
  | [] => .ok []
  | item :: rest =>
    match getf item with
    | none => range_search rest getf min_val max_val
    | some value =>
      match value with
      | .str s =>
        if dateShape s then
          match strptimeYMD s with
          | none => range_search rest getf min_val max_val
          | some ymd =>
            match convBound min_val with
            | .error _ => range_search rest getf min_val max_val
            | .ok min' =>
              match convBound max_val with
              | .error _ => range_search rest getf min' max_val
              | .ok max' =>
                match rangeKeep (.date (dateEnc ymd)) min' max' with
                | .error e => .error e
                | .ok keep =>
                  match range_search rest getf min' max' with
                  | .error e => .error e
                  | .ok tail => .ok (if keep then item :: tail else tail)
        else
          match rangeKeep value min_val max_val with
          | .error e => .error e
          | .ok keep =>
            match range_search rest getf min_val max_val with
            | .error e => .error e
            | .ok tail => .ok (if keep then item :: tail else tail)
      | _ =>
        match rangeKeep value min_val max_val with
        | .error e => .error e
        | .ok keep =>
          match range_search rest getf min_val max_val with
          | .error e => .error e
          | .ok tail => .ok (if keep then item :: tail else tail)

end SearchAlgorithms

/-- The numeric key domain of the engine's sort: a float together with the
two infinities used for missing values. -/
abbrev NumV := WithBot (WithTop ℚ)

/-- A finite number as a `NumV`. -/
def numOf (q : ℚ) : NumV := ((q : WithTop ℚ) : NumV)

/-- `float('inf')`. -/
def numTop : NumV := ((⊤ : WithTop ℚ) : NumV)

/-- `float('-inf')`. -/
def numBot : NumV := (⊥ : NumV)

/-- A sort key produced by the engine's `sort_key` closure: a parsed
date, a number (possibly an infinity), or a string. -/
inductive SKey where
  | dt : ℕ → SKey
  | num : NumV → SKey
  | str : String → SKey
  deriving DecidableEq

/-- Kind tag of a sort key; Python can only compare keys of one kind. -/
def SKey.tag : SKey → ℕ
  | .dt _ => 0
  | .num _ => 1
  | .str _ => 2

/-- A total extension of Python's `<=` on sort keys.  Within one kind it
is Python's comparison; across kinds (where Python raises `TypeError`,
and where the engine below therefore never sorts) kinds are ordered by
tag so that a total order is available. -/
def SKey.ble : SKey → SKey → Bool
  | .dt a, .dt b => decide (a ≤ b)
  | .num a, .num b => decide (a ≤ b)
  | .str a, .str b => decide (a ≤ b)
  | a, b => decide (a.tag < b.tag)

/-- Python truthiness of a sort-key value (`0`, `""` falsy). -/
def SKey.truthy : SKey → Bool
  | .str s => s ≠ ""
  | .num n => n ≠ numOf 0
  | .dt _ => true

/-- Truthiness of `item.get(field)`. -/
def truthySK : Option SKey → Bool
  | none => false
  | some v => v.truthy

/-- All keys of one kind (exactly the lists Python's `sorted` totally
orders without raising `TypeError`). -/
def homogeneousKeys : List SKey → Bool
  | [] => true
  | k :: ks => ks.all (fun x => x.tag == k.tag)

/-- Insert `a` into `l` before the first element `b` with `le a b`
(insertion step of a stable insertion sort). -/
def insertSorted {α : Type} (le : α → α → Bool) (a : α) : List α → List α
  | [] => [a]
  | b :: l => if le a b then a :: b :: l else b :: insertSorted le a l

/-- A stable sort by the boolean comparison `le` (insertion sort).  A
stable sort is determined up to extensional equality by its comparison,
so this is the list Python's stable `sorted` returns. -/
def stableSort {α : Type} (le : α → α → Bool) : List α → List α
  | [] => []
  | b :: l => insertSorted le b (stableSort le l)

namespace SortingAlgorithms

/-- `SortingAlgorithms.timsort`: Python's `sorted(data, key=key_func,
reverse=reverse)` — a stable sort; with `reverse=True` keys are ordered
descending while equal-key records keep their input order. -/
def timsort {α : Type} (data : List α) (key_func : α → SKey) (reverse : Bool) : List α :=
  if reverse then stableSort (fun a b => SKey.ble (key_func b) (key_func a)) data
  else stableSort (fun a b => SKey.ble (key_func a) (key_func b)) data

/-- `SortingAlgorithms.quicksort`: partitions around the middle element's
key into strictly-less, equal and strictly-greater parts and recurses on
the outer two. -/
def quicksort {α κ : Type} [LinearOrder κ] (key_func : α → κ) (arr : List α) : List α :=
  if h : arr.length ≤ 1 then arr
  else
    let pivot := arr.get ⟨arr.length / 2, by omega⟩
    let pivot_key := key_func pivot
    let left := arr.filter (fun x => decide (key_func x < pivot_key))
    let middle := arr.filter (fun x => decide (key_func x = pivot_key))
    let right := arr.filter (fun x => decide (pivot_key < key_func x))
    quicksort key_func left ++ middle ++ quicksort key_func right
termination_by arr.length
decreasing_by
  · refine Nat.lt_of_le_of_ne (List.length_filter_le _ _) (fun hcontra => ?_)
    have hall := List.filter_length_eq_length.mp hcontra
    have hp := hall (arr.get ⟨arr.length / 2, by omega⟩) (arr.get_mem _ _)
    simp at hp
  · refine Nat.lt_of_le_of_ne (List.length_filter_le _ _) (fun hcontra => ?_)
    have hall := List.filter_length_eq_length.mp hcontra
    have hp := hall (arr.get ⟨arr.length / 2, by omega⟩) (arr.get_mem _ _)
    simp at hp

end SortingAlgorithms

namespace AggregationAlgorithms

/-- `statistics.median`: sort, take the middle element (odd length) or
the mean of the two middle elements (even length). -/
def pyMedian (l : List ℚ) : ℚ :=
  let s := stableSort (fun a b : ℚ => decide (a ≤ b)) l
  let n := l.length
  if n % 2 = 1 then s.getD (n / 2) 0
  else (s.getD (n / 2 - 1) 0 + s.getD (n / 2) 0) / 2

/-- Distinct values in first-occurrence order (`collections.Counter`
iterates keys in insertion order). -/
def uniqFirst (l : List ℚ) : List ℚ := go [] l
where
  go : List ℚ → List ℚ → List ℚ
  | _, [] => []
  | seen, a :: l => if a ∈ seen then go seen l else a :: go (a :: seen) l

/-- `statistics.mode` on Python >= 3.8: `Counter(data).most_common(1)`,
i.e. the first-encountered value of maximal multiplicity.  It raises
only on empty input (which the caller rules out); `0` is a dummy for
the empty case. -/
def pyMode (l : List ℚ) : ℚ :=
  let u := uniqFirst l
  let maxCount := (u.map (fun v => l.count v)).foldr max 0
  match u.find? (fun v => l.count v == maxCount) with
  | some v => v
  | none => 0

/-- The `{sum, mean, median, mode}` dict of `calculate_basic_stats`. -/
structure Stats where
  sum : ℚ
  mean : ℚ
  median : ℚ
  mode : ℚ
  deriving DecidableEq, Repr

/-- `AggregationAlgorithms.calculate_basic_stats`.  On Python >= 3.8
`statistics.mode` never raises on the non-empty list of rounded
amounts, so the `except StatisticsError` median fallback in the source
is unreachable and the mode is the first most-frequent rounded value. -/
def calculate_basic_stats (amounts : List ℚ) : Stats :=
  if amounts = [] then ⟨0, 0, 0, 0⟩
  else
    let total_sum := amounts.sum
    let mean_val := amounts.sum / amounts.length
    let median_val := pyMedian amounts
    let mode_val := pyMode (amounts.map round2)
    ⟨round2 total_sum, round2 mean_val, round2 median_val, round2 mode_val⟩

/-- One row of `vendor_aggregation`. -/
structure VendorRow where
  vendor : String
  count : ℕ
  total : ℚ
  average : ℚ
  deriving DecidableEq, Repr

/-- One row of `category_aggregation`. -/
structure CategoryRow where
  category : String
  count : ℕ
  amount : ℚ
  deriving DecidableEq, Repr

/-- One row of `time_series_aggregation`. -/
structure MonthlyRow where
  month : String
  amount : ℚ
  date_sort : String
  deriving DecidableEq, Repr

/-- A `defaultdict(lambda: dict(count=0, total=0))` accumulator update:
bump the entry of key `v` by one count and amount `a`, creating it at
the end (insertion order) if absent. -/
def updGroup : List (String × ℕ × ℚ) → String → ℚ → List (String × ℕ × ℚ)
  | [], v, a => [(v, 1, a)]
  | (k, c, t) :: rest, v, a =>
    if k = v then (k, c + 1, t + a) :: rest else (k, c, t) :: updGroup rest v a

/-- The group key of `vendor_aggregation`: `receipt.get('vendor', 'Unknown')`. -/
def vendorKey (r : Record) : String := r.vendor.getD "Unknown"

/-- `receipt.get('amount', 0) or 0`. -/
def amountOf (r : Record) : ℚ := r.amount.getD 0

/-- `AggregationAlgorithms.vendor_aggregation`: group by vendor (missing
vendor keyed `"Unknown"`), then one row per group with rounded total and
rounded `total / count`, sorted by total descending. -/
def vendor_aggregation (receipts : List Record) : List VendorRow :=
  let vendor_stats := receipts.foldl
    (fun acc receipt => updGroup acc (vendorKey receipt) (amountOf receipt)) []
  let result := vendor_stats.map (fun e =>
    { vendor := e.1, count := e.2.1, total := round2 e.2.2,
      average := if 0 < e.2.1 then round2 (e.2.2 / e.2.1) else 0 })
  SortingAlgorithms.timsort result (fun x => .num (numOf x.total)) true

/-- `AggregationAlgorithms.category_aggregation`: group by category
(missing keyed `"Uncategorized"`), rows sorted by amount descending. -/
def category_aggregation (receipts : List Record) : List CategoryRow :=
  let category_stats := receipts.foldl
    (fun acc receipt =>
      updGroup acc (receipt.category.getD "Uncategorized") (amountOf receipt)) []
  let result := category_stats.map (fun e => ⟨e.1, e.2.1, round2 e.2.2⟩)
  SortingAlgorithms.timsort result (fun x => .num (numOf x.amount)) true

/-- A `defaultdict(float)` accumulator update keyed by month string. -/
def updMonth : List (String × ℚ) → String → ℚ → List (String × ℚ)
  | [], k, a => [(k, a)]
  | (k0, t) :: rest, k, a =>
    if k0 = k then (k0, t + a) :: rest else (k0, t) :: updMonth rest k a

/-- Decimal digits of `n`, zero-padded to width 2 (`strftime` `%m`). -/
def pad2 (n : ℕ) : String := if n < 10 then "0" ++ toString n else toString n

/-- Decimal digits of `n`, zero-padded to width 4 (`strftime` `%Y`). -/
def pad4 (n : ℕ) : String :=
  if n < 10 then "000" ++ toString n
  else if n < 100 then "00" ++ toString n
  else if n < 1000 then "0" ++ toString n
  else toString n

/-- `strftime('%b')` month abbreviations. -/
def monthName (m : ℕ) : String :=
  ["Jan", "Feb", "Mar", "Apr", "May", "Jun",
   "Jul", "Aug", "Sep", "Oct", "Nov", "Dec"].getD (m - 1) ""

/-- `AggregationAlgorithms.time_series_aggregation`: bucket records with
a parsable date by their `"%Y-%m"` key summing amounts (unparsable or
falsy dates skipped), then emit one labelled row per month sorted by the
`date_sort` key; the `strptime(month, '%Y-%m')` re-parse never fails on
a generated key, mirrored by `filterMap`. -/
def time_series_aggregation (receipts : List Record) : List MonthlyRow :=
  let monthly_stats := receipts.foldl
    (fun acc receipt =>
      match receipt.date with
      | none => acc
      | some date_str =>
        if date_str ≠ "" then
          match strptimeYMD date_str with
          | some ymd => updMonth acc (pad4 ymd.1 ++ "-" ++ pad2 ymd.2.1) (amountOf receipt)
          | none => acc
        else acc) []
  let result := monthly_stats.filterMap (fun e =>
    match strptimeYM e.1 with
    | some ym => some ⟨monthName ym.2 ++ " " ++ pad4 ym.1, round2 e.2, e.1⟩
    | none => none)
  SortingAlgorithms.timsort result (fun x => .str x.date_sort) false

/-- `AggregationAlgorithms.moving_average`.  `sum(window)/window_size`
raises `ZeroDivisionError` when the window size is zero (the loop is
always entered then, since no length is `< 0`). -/
def moving_average (data : List ℚ) (window_size : ℕ := 3) : Except PyErr (List ℚ) :=
  if data.length < window_size then .ok data
  else if window_size = 0 then .error .zeroDivisionError
  else .ok ((List.range (data.length - window_size + 1)).map
    (fun i => round2 (((data.drop i).take window_size).sum / window_size)))

/-- The dict returned by `calculate_trends`; `moving_avg` is `none` for
the `insufficient_data` early return, whose dict has no such key. -/
structure TrendResult where
  trend : String
  growth_rate : ℚ
  moving_avg : Option (List ℚ)
  deriving DecidableEq, Repr

/-- `AggregationAlgorithms.calculate_trends`: split the amount series at
`len // 2` (so on odd lengths the second half is the longer one), take
the mean of each half, and classify the growth rate.  `moving_average`
with the default window 3 never raises, so `toOption` loses nothing. -/
def calculate_trends (monthly_data : List MonthlyRow) : TrendResult :=
  if monthly_data.length < 2 then ⟨"insufficient_data", 0, none⟩
  else
    let amounts := monthly_data.map MonthlyRow.amount
    let first_half := amounts.take (amounts.length / 2)
    let second_half := amounts.drop (amounts.length / 2)
    let first_avg := if first_half ≠ [] then first_half.sum / first_half.length else 0
    let second_avg := if second_half ≠ [] then second_half.sum / second_half.length else 0
    let growth_rate := if 0 < first_avg then (second_avg - first_avg) / first_avg * 100 else 0
    let trend := if 5 < growth_rate then "increasing"
      else if growth_rate < -5 then "decreasing" else "stable"
    ⟨trend, round2 growth_rate, (moving_average amounts).toOption⟩

end AggregationAlgorithms

/-- The `filters` dict passed to `execute_query` (query parameters of
`GET /receipts`); `none` is an absent or `None` entry. -/
structure Filters where
  keyword : Option String := none
  vendor : Option String := none
  category : Option String := none
  date_from : Option String := none
  date_to : Option String := none
  amount_min : Option ℚ := none
  amount_max : Option ℚ := none
  deriving DecidableEq, Repr

/-- The `sort_options` dict passed to `execute_query`. -/
structure SortOptions where
  field : Option String := none
  direction : Option String := none
  deriving DecidableEq, Repr

namespace ComplexQueryEngine

/-- `item.get(field)` lifted to the sort-key domain for the dict keys a
record carries; an unknown field name yields `None`. -/
def sortGet (item : Record) (field : String) : Option SKey :=
  if field == "id" then some (.num (numOf item.id))
  else if field == "file_name" then item.file_name.map .str
  else if field == "vendor" then item.vendor.map .str
  else if field == "date" then item.date.map .str
  else if field == "amount" then item.amount.map (fun q => .num (numOf q))
  else if field == "category" then item.category.map .str
  else if field == "description" then item.description.map .str
  else if field == "upload_date" then item.upload_date.map .dt
  else if field == "file_type" then item.file_type.map .str
  else if field == "file_size" then item.file_size.map (fun n => .num (numOf n))
  else if field == "status" then item.status.map .str
  else if field == "extracted_text" then item.extracted_text.map .str
  else if field == "confidence_score" then item.confidence_score.map (fun q => .num (numOf q))
  else none

/-- The `sort_key` closure of `execute_query`: a truthy date field is
parsed (`datetime.min` on failure); otherwise `value or ±inf`, so a
missing or falsy value becomes the directional infinity. -/
def sort_key (field : String) (reverse : Bool) (item : Record) : SKey :=
  let value := sortGet item field
  if field == "date" && truthySK value then
    match value with
    | some (.str s) =>
      match strptimeYMD s with
      | some ymd => .dt (dateEnc ymd)
      | none => .dt dateMinEnc
    | _ => .dt dateMinEnc
  else
    match value with
    | some v => if v.truthy then v else (if reverse then .num numBot else .num numTop)
    | none => if reverse then .num numBot else .num numTop

/-- The sorting block of `execute_query`: when a sort field is requested,
`sorted` either totally orders the keys (all of one kind) or raises
`TypeError` as soon as it compares keys of different kinds. -/
def applySorting (filtered_data : List Record) (sort_options : SortOptions) :
    Except PyErr (List Record) :=
  if truthyO sort_options.field then
    let field := sort_options.field.getD ""
    let reverse := sort_options.direction.getD "desc" == "desc"
    if homogeneousKeys (filtered_data.map (sort_key field reverse)) then
      .ok (SortingAlgorithms.timsort filtered_data (sort_key field reverse) reverse)
    else .error .typeError
  else .ok filtered_data

/-- The result dict of `execute_query`. -/
structure Bundle where
  data : List Record
  count : ℕ
  stats : AggregationAlgorithms.Stats
  vendor_stats : List AggregationAlgorithms.VendorRow
  category_stats : List AggregationAlgorithms.CategoryRow
  monthly_stats : List AggregationAlgorithms.MonthlyRow
  deriving DecidableEq, Repr

/-- The keyword-filter block of `execute_query`. -/
def keywordStage (filtered_data : List Record) (filters : Filters) : List Record :=
  if truthyO filters.keyword then
    SearchAlgorithms.keyword_search filtered_data (filters.keyword.getD "")
      ["vendor", "category", "description", "extracted_text"]
  else filtered_data

/-- The vendor-filter block of `execute_query`
(`r.get('vendor', '').lower().find(...) != -1`). -/
def vendorStage (filtered_data : List Record) (filters : Filters) : List Record :=
  if truthyO filters.vendor then
    filtered_data.filter (fun r =>
      strContains (r.vendor.getD "").toLower (filters.vendor.getD "").toLower)
  else filtered_data

/-- The category-filter block of `execute_query`
(`r.get('category') == filters['category']`). -/
def categoryStage (filtered_data : List Record) (filters : Filters) : List Record :=
  if truthyO filters.category then
    filtered_data.filter (fun r => r.category == filters.category)
  else filtered_data

/-- The date-range-filter block of `execute_query`. -/
def dateStage (filtered_data : List Record) (filters : Filters) :
    Except PyErr (List Record) :=
  if truthyO filters.date_from || truthyO filters.date_to then
    SearchAlgorithms.range_search filtered_data (fun r => r.date.map PyVal.str)
      (filters.date_from.map PyVal.str) (filters.date_to.map PyVal.str)
  else .ok filtered_data

/-- The amount-range-filter block of `execute_query`. -/
def amountStage (filtered_data : List Record) (filters : Filters) :
    Except PyErr (List Record) :=
  if filters.amount_min.isSome || filters.amount_max.isSome then
    SearchAlgorithms.range_search filtered_data (fun r => r.amount.map PyVal.num)
      (filters.amount_min.map PyVal.num) (filters.amount_max.map PyVal.num)
  else .ok filtered_data

/-- `ComplexQueryEngine.execute_query`: keyword, vendor, category, date
range and amount range filters in order, then the optional sort, then
all aggregates over the filtered sequence. -/
def execute_query (data : List Record) (filters : Filters)
    (sort_options : SortOptions) : Except PyErr Bundle :=
  let filtered_data := data
  let filtered_data := keywordStage filtered_data filters
  let filtered_data := vendorStage filtered_data filters
  let filtered_data := categoryStage filtered_data filters
  match dateStage filtered_data filters with
  | .error e => .error e
  | .ok fd1 =>
    match amountStage fd1 filters with
    | .error e => .error e
    | .ok fd2 =>
      match applySorting fd2 sort_options with
      | .error e => .error e
      | .ok fd3 =>
        let amounts := fd3.map (fun r => r.amount.getD 0)
        .ok ⟨fd3, fd3.length,
          AggregationAlgorithms.calculate_basic_stats amounts,
          AggregationAlgorithms.vendor_aggregation fd3,
          AggregationAlgorithms.category_aggregation fd3,
          AggregationAlgorithms.time_series_aggregation fd3⟩

end ComplexQueryEngine

/-! ## Order properties of the sort-key comparison -/

theorem SKey.ble_refl (a : SKey) : SKey.ble a a := by
  cases a <;> simp [SKey.ble]

theorem SKey.ble_trans : ∀ a b c : SKey, SKey.ble a b → SKey.ble b c → SKey.ble a c := by
  intro a b c hab hbc
  cases a <;> cases b <;> cases c <;>
    simp only [SKey.ble, SKey.tag, decide_eq_true_eq] at * <;>
    first
      | exact le_trans hab hbc
      | omega

theorem SKey.ble_total : ∀ a b : SKey, SKey.ble a b || SKey.ble b a := by
  intro a b
  cases a <;> cases b <;>
    simp only [SKey.ble, SKey.tag, Bool.or_eq_true, decide_eq_true_eq] <;>
    first
      | exact le_total _ _
      | omega

theorem SKey.ble_num_iff (a b : NumV) : SKey.ble (.num a) (.num b) = true ↔ a ≤ b := by
  simp [SKey.ble]

/-! ## Generic facts about the stable sort -/

theorem insertSorted_perm {α : Type} (le : α → α → Bool) (a : α) :
    ∀ l : List α, List.Perm (insertSorted le a l) (a :: l)
  | [] => List.Perm.refl _
  | b :: l => by
    rw [insertSorted]
    split
    · exact List.Perm.refl _
    · exact ((insertSorted_perm le a l).cons b).trans (List.Perm.swap a b l)

theorem stableSort_perm {α : Type} (le : α → α → Bool) :
    ∀ l : List α, List.Perm (stableSort le l) l
  | [] => List.Perm.refl _
  | b :: l => by
    rw [stableSort]
    exact (insertSorted_perm le b _).trans ((stableSort_perm le l).cons b)

theorem mem_insertSorted {α : Type} {le : α → α → Bool} {a x : α} {l : List α} :
    x ∈ insertSorted le a l ↔ x = a ∨ x ∈ l := by
  rw [(insertSorted_perm le a l).mem_iff, List.mem_cons]

theorem insertSorted_pairwise {α : Type} (le : α → α → Bool)
    (htrans : ∀ a b c, le a b → le b c → le a c)
    (htotal : ∀ a b, le a b || le b a) (a : α) :
    ∀ l : List α, l.Pairwise (fun x y => le x y) →
      (insertSorted le a l).Pairwise (fun x y => le x y)
  | [], _ => List.pairwise_singleton _ _
  | b :: l, h => by
    rw [insertSorted]
    split
    · rename_i hab
      refine List.Pairwise.cons ?_ h
      intro x hx
      rcases List.mem_cons.mp hx with rfl | hx
      · exact hab
      · exact htrans _ _ _ hab (List.rel_of_pairwise_cons h hx)
    · rename_i hab
      refine List.Pairwise.cons ?_ (insertSorted_pairwise le htrans htotal a l h.of_cons)
      intro x hx
      rcases mem_insertSorted.mp hx with heq | hx
      · rw [heq]
        have := htotal a b
        simp only [Bool.or_eq_true] at this
        exact this.resolve_left (by simpa using hab)
      · exact List.rel_of_pairwise_cons h hx

theorem stableSort_pairwise {α : Type} (le : α → α → Bool)
    (htrans : ∀ a b c, le a b → le b c → le a c)
    (htotal : ∀ a b, le a b || le b a) :
    ∀ l : List α, (stableSort le l).Pairwise (fun x y => le x y)
  | [] => List.Pairwise.nil
  | b :: l => insertSorted_pairwise le htrans htotal b _ (stableSort_pairwise le htrans htotal l)

theorem sublist_insertSorted {α : Type} (le : α → α → Bool) (a : α) :
    ∀ l : List α, List.Sublist l (insertSorted le a l)
  | [] => List.nil_sublist _
  | b :: l => by
    rw [insertSorted]
    split
    · exact (List.Sublist.refl _).cons a
    · exact (sublist_insertSorted le a l).cons₂ b

theorem cons_sublist_insertSorted {α : Type} {le : α → α → Bool} {a : α} :
    ∀ (l c : List α), List.Sublist c l → (∀ x ∈ c, le a x) →
      List.Sublist (a :: c) (insertSorted le a l)
  | [], c, hl, _ => by
    rw [List.sublist_nil.mp hl]
    exact List.Sublist.refl _
  | b :: l, c, hl, ha => by
    rw [insertSorted]
    split
    · exact hl.cons₂ a
    · rename_i hab
      cases hl with
      | cons _ h => exact (cons_sublist_insertSorted l _ h ha).cons b
      | cons₂ _ h =>
        exact absurd (ha b (List.mem_cons_self b _)) (by simpa using hab)

theorem sublist_stableSort {α : Type} (le : α → α → Bool) :
    ∀ (l c : List α), c.Pairwise (fun x y => le x y) → List.Sublist c l →
      List.Sublist c (stableSort le l)
  | [], c, _, hc => by
    rw [List.sublist_nil.mp hc]
    exact List.nil_sublist _
  | b :: l, c, hp, hc => by
    rw [stableSort]
    cases hc with
    | cons _ h => exact (sublist_stableSort le l _ hp h).trans (sublist_insertSorted le b _)
    | cons₂ _ h =>
      rcases List.pairwise_cons.mp hp with ⟨hr, hp2⟩
      exact cons_sublist_insertSorted _ _ (sublist_stableSort le l _ hp2 h) hr

theorem timsort_perm {α : Type} (data : List α) (key_func : α → SKey) (reverse : Bool) :
    List.Perm (SortingAlgorithms.timsort data key_func reverse) data := by
  unfold SortingAlgorithms.timsort
  split <;> exact stableSort_perm _ _

theorem mem_timsort {α : Type} {data : List α} {key_func : α → SKey} {reverse : Bool} {x : α} :
    x ∈ SortingAlgorithms.timsort data key_func reverse ↔ x ∈ data :=
  (timsort_perm data key_func reverse).mem_iff

/-- The filter characterisation of stability: a stable sort preserves,
for each key value, the exact subsequence of elements having that key. -/
theorem stableSort_filter_eq {α κ : Type} [DecidableEq κ] (key : α → κ) (le : α → α → Bool)
    (hkey : ∀ a b, key a = key b → le a b)
    (l : List α) (k : κ) :
    (stableSort le l).filter (fun a => key a == k) = l.filter (fun a => key a == k) := by
  set p : α → Bool := fun a => key a == k with hp
  have hmemkey : ∀ x ∈ l.filter p, key x = k := by
    intro x hx
    have := (List.mem_filter.mp hx).2
    simpa [hp] using this
  have hpair : (l.filter p).Pairwise (fun a b => le a b) := by
    apply List.pairwise_of_forall_mem_list
    intro a ha b hb
    exact hkey a b ((hmemkey a ha).trans (hmemkey b hb).symm)
  have hsub : List.Sublist (l.filter p) (stableSort le l) :=
    sublist_stableSort le l _ hpair (List.filter_sublist l)
  have hsub2 : List.Sublist (l.filter p) ((stableSort le l).filter p) := by
    have h1 := hsub.filter p
    rwa [List.filter_filter,
      show (fun a => p a && p a) = p from by funext a; cases h : p a <;> simp [h]] at h1
  have hlen : (l.filter p).length = ((stableSort le l).filter p).length :=
    (((stableSort_perm le l).filter p).length_eq).symm
  exact (hsub2.eq_of_length hlen).symm

/-- Stability of `timsort` in both directions, for any key function. -/
theorem timsort_filter_eq {α : Type} (data : List α) (key_func : α → SKey) (reverse : Bool)
    (k : SKey) :
    (SortingAlgorithms.timsort data key_func reverse).filter (fun a => key_func a == k)
      = data.filter (fun a => key_func a == k) := by
  unfold SortingAlgorithms.timsort
  split
  · exact stableSort_filter_eq key_func (fun a b => SKey.ble (key_func b) (key_func a))
      (fun a b h => by simp only [h]; exact SKey.ble_refl _) data k
  · exact stableSort_filter_eq key_func (fun a b => SKey.ble (key_func a) (key_func b))
      (fun a b h => by simp only [h]; exact SKey.ble_refl _) data k

/-- `timsort` with `reverse = false` sorts ascending on keys. -/
theorem timsort_sorted_asc {α : Type} (data : List α) (key_func : α → SKey) :
    (SortingAlgorithms.timsort data key_func false).Pairwise
      (fun a b => SKey.ble (key_func a) (key_func b)) := by
  unfold SortingAlgorithms.timsort
  simp only [Bool.false_eq_true, if_false]
  exact stableSort_pairwise (fun a b => SKey.ble (key_func a) (key_func b))
    (fun a b c hab hbc => SKey.ble_trans _ _ _ hab hbc)
    (fun a b => SKey.ble_total (key_func a) (key_func b)) data

/-- `timsort` with `reverse = true` sorts descending on keys. -/
theorem timsort_sorted_desc {α : Type} (data : List α) (key_func : α → SKey) :
    (SortingAlgorithms.timsort data key_func true).Pairwise
      (fun a b => SKey.ble (key_func b) (key_func a)) := by
  unfold SortingAlgorithms.timsort
  simp only [if_true]
  exact stableSort_pairwise (fun a b => SKey.ble (key_func b) (key_func a))
    (fun a b c hab hbc => SKey.ble_trans _ _ _ hbc hab)
    (fun a b => SKey.ble_total (key_func b) (key_func a)) data

/-! ## The filter stages only select from their input -/

theorem range_search_sublist (data : List Record) (getf : Record → Option PyVal) :
    ∀ (mn mx : Option PyVal) (out : List Record),
    SearchAlgorithms.range_search data getf mn mx = .ok out → List.Sublist out data := by
  induction data with
  | nil =>
    intro mn mx out h
    simp only [SearchAlgorithms.range_search] at h
    cases h
    exact List.Sublist.refl _
  | cons item rest ih =>
    intro mn mx out h
    rw [SearchAlgorithms.range_search] at h
    repeat' split at h
    all_goals try exact (ih _ _ _ h).cons _
    all_goals try simp at h
    all_goals subst h
    all_goals first
      | exact (ih _ _ _ (by assumption)).cons₂ _
      | exact (ih _ _ _ (by assumption)).cons _

theorem applySorting_perm (l : List Record) (so : SortOptions) (out : List Record)
    (h : ComplexQueryEngine.applySorting l so = .ok out) : List.Perm out l := by
  unfold ComplexQueryEngine.applySorting at h
  simp only [] at h
  split at h
  · split at h
    · rw [Except.ok.injEq] at h
      subst h
      exact timsort_perm _ _ _
    · simp at h
  · rw [Except.ok.injEq] at h
    subst h
    exact List.Perm.refl _

theorem keywordStage_subset (l : List Record) (filters : Filters) :
    ∀ r ∈ ComplexQueryEngine.keywordStage l filters, r ∈ l := by
  intro r hr
  unfold ComplexQueryEngine.keywordStage at hr
  split at hr
  · exact (List.mem_filter.mp hr).1
  · exact hr

theorem vendorStage_subset (l : List Record) (filters : Filters) :
    ∀ r ∈ ComplexQueryEngine.vendorStage l filters, r ∈ l := by
  intro r hr
  unfold ComplexQueryEngine.vendorStage at hr
  split at hr
  · exact (List.mem_filter.mp hr).1
  · exact hr

theorem categoryStage_subset (l : List Record) (filters : Filters) :
    ∀ r ∈ ComplexQueryEngine.categoryStage l filters, r ∈ l := by
  intro r hr
  unfold ComplexQueryEngine.categoryStage at hr
  split at hr
  · exact (List.mem_filter.mp hr).1
  · exact hr

theorem dateStage_subset (l : List Record) (filters : Filters) (out : List Record)
    (h : ComplexQueryEngine.dateStage l filters = .ok out) : ∀ r ∈ out, r ∈ l := by
  unfold ComplexQueryEngine.dateStage at h
  split at h
  · exact fun r hr => (range_search_sublist _ _ _ _ _ h).subset hr
  · rw [Except.ok.injEq] at h
    subst h
    exact fun r hr => hr

theorem amountStage_subset (l : List Record) (filters : Filters) (out : List Record)
    (h : ComplexQueryEngine.amountStage l filters = .ok out) : ∀ r ∈ out, r ∈ l := by
  unfold ComplexQueryEngine.amountStage at h
  split at h
  · exact fun r hr => (range_search_sublist _ _ _ _ _ h).subset hr
  · rw [Except.ok.injEq] at h
    subst h
    exact fun r hr => hr

/-- **C5.**  For all record sequences and every query specification, a
returned bundle has `count` equal to the length of its `data` sequence,
and every record of `data` is an element of the input sequence. -/
theorem execute_query_count_and_subset (data : List Record) (filters : Filters)
    (sort_options : SortOptions) (b : ComplexQueryEngine.Bundle)
    (h : ComplexQueryEngine.execute_query data filters sort_options = .ok b) :
    b.count = b.data.length ∧ ∀ r ∈ b.data, r ∈ data := by
  simp only [ComplexQueryEngine.execute_query] at h
  split at h
  · simp at h
  · rename_i fd1 heq1
    split at h
    · simp at h
    · rename_i fd2 heq2
      split at h
      · simp at h
      · rename_i fd3 heq3
        rw [Except.ok.injEq] at h
        subst h
        refine ⟨rfl, ?_⟩
        intro r hr
        have h3 : r ∈ fd2 := (applySorting_perm _ _ _ heq3).subset hr
        have h2 : r ∈ fd1 := amountStage_subset _ _ _ heq2 r h3
        have h1 := dateStage_subset _ _ _ heq1 r h2
        exact keywordStage_subset _ _ r
          (vendorStage_subset _ _ r (categoryStage_subset _ _ r h1))

theorem execute_query_count_and_subset_witness :
    (⟨[], 0, ⟨0, 0, 0, 0⟩, [], [], []⟩ : ComplexQueryEngine.Bundle).count
        = (⟨[], 0, ⟨0, 0, 0, 0⟩, [], [], []⟩ : ComplexQueryEngine.Bundle).data.length
    ∧ ∀ r ∈ (⟨[], 0, ⟨0, 0, 0, 0⟩, [], [], []⟩ : ComplexQueryEngine.Bundle).data,
        r ∈ ([] : List Record) :=
  execute_query_count_and_subset [] {} {} ⟨[], 0, ⟨0, 0, 0, 0⟩, [], [], []⟩ (by with_unfolding_all decide)

/-- **C6.**  The engine's sort is stable: for every filtered sequence and
every requested (field, direction), the subsequence of records whose sort
key equals any given value is unchanged by the sort, i.e. records with
equal keys keep their relative pre-sort order, for both directions. -/
theorem engine_sort_stable (l out : List Record) (field direction : String) (k : SKey)
    (h : ComplexQueryEngine.applySorting l ⟨some field, some direction⟩ = .ok out) :
    out.filter (fun r => ComplexQueryEngine.sort_key field (direction == "desc") r == k)
      = l.filter (fun r => ComplexQueryEngine.sort_key field (direction == "desc") r == k) := by
  unfold ComplexQueryEngine.applySorting at h
  simp only [] at h
  split at h
  · split at h
    · rw [Except.ok.injEq] at h
      subst h
      exact timsort_filter_eq l _ _ k
    · simp at h
  · rw [Except.ok.injEq] at h
    subst h
    rfl

theorem engine_sort_stable_witness :
    (List.filter
        (fun r => ComplexQueryEngine.sort_key "amount" ("asc" == "desc") r == SKey.num (numOf 5))
        [{ id := 2, amount := some 5 }, { id := 1, amount := some 5 }])
      = List.filter
        (fun r => ComplexQueryEngine.sort_key "amount" ("asc" == "desc") r == SKey.num (numOf 5))
        [{ id := 2, amount := some 5 }, { id := 1, amount := some 5 }] :=
  engine_sort_stable [{ id := 2, amount := some 5 }, { id := 1, amount := some 5 }]
    [{ id := 2, amount := some 5 }, { id := 1, amount := some 5 }]
    "amount" "asc" (SKey.num (numOf 5)) (by with_unfolding_all decide)

/-! ## Sort keys of falsy and missing values -/

theorem numOf_inj {a b : ℚ} : numOf a = numOf b ↔ a = b := by
  simp [numOf]

theorem not_numTop_le_numOf (q : ℚ) : ¬ (numTop ≤ numOf q) := by
  simp [numTop, numOf]

theorem sort_key_amount_zero (rev : Bool) (r : Record) (h : r.amount = some 0) :
    ComplexQueryEngine.sort_key "amount" rev r = .num (if rev then numBot else numTop) := by
  simp [ComplexQueryEngine.sort_key, ComplexQueryEngine.sortGet, h, truthySK, SKey.truthy]
  split <;> rfl

theorem sort_key_amount_missing (rev : Bool) (r : Record) (h : r.amount = none) :
    ComplexQueryEngine.sort_key "amount" rev r = .num (if rev then numBot else numTop) := by
  simp [ComplexQueryEngine.sort_key, ComplexQueryEngine.sortGet, h, truthySK, SKey.truthy]
  split <;> rfl

theorem sort_key_amount_pos (rev : Bool) (r : Record) (q : ℚ) (h : r.amount = some q)
    (hq : q ≠ 0) : ComplexQueryEngine.sort_key "amount" rev r = .num (numOf q) := by
  simp [ComplexQueryEngine.sort_key, ComplexQueryEngine.sortGet, h, truthySK, SKey.truthy,
    numOf_inj, hq]

theorem sort_key_vendor_empty (rev : Bool) (r : Record) (h : r.vendor = some "") :
    ComplexQueryEngine.sort_key "vendor" rev r = .num (if rev then numBot else numTop) := by
  simp [ComplexQueryEngine.sort_key, ComplexQueryEngine.sortGet, h, truthySK, SKey.truthy]
  split <;> rfl

theorem sort_key_vendor_missing (rev : Bool) (r : Record) (h : r.vendor = none) :
    ComplexQueryEngine.sort_key "vendor" rev r = .num (if rev then numBot else numTop) := by
  simp [ComplexQueryEngine.sort_key, ComplexQueryEngine.sortGet, h, truthySK, SKey.truthy]
  split <;> rfl

/-- **C10.**  A record whose value for the sort field is present but
falsy (`0`, or the empty string) receives the same sort key as a record
missing the field entirely — the directional infinity — and therefore,
in every ascending sort by amount, a record with amount `0` appears
after every record with a positive amount. -/
theorem engine_sort_falsy_key (rev : Bool) (rz rm rs rn : Record) (l out : List Record)
    (hz : rz.amount = some 0) (hm : rm.amount = none)
    (hs : rs.vendor = some "") (hn : rn.vendor = none)
    (h : ComplexQueryEngine.applySorting l ⟨some "amount", some "asc"⟩ = .ok out)
    (i j : ℕ) (hi : i < out.length) (hj : j < out.length)
    (hiz : (out.get ⟨i, hi⟩).amount = some 0)
    (q : ℚ) (hjq : (out.get ⟨j, hj⟩).amount = some q) (hq : 0 < q) :
    (ComplexQueryEngine.sort_key "amount" rev rz = ComplexQueryEngine.sort_key "amount" rev rm
      ∧ ComplexQueryEngine.sort_key "amount" rev rz = .num (if rev then numBot else numTop)
      ∧ ComplexQueryEngine.sort_key "vendor" rev rs = ComplexQueryEngine.sort_key "vendor" rev rn)
    ∧ j < i := by
  refine ⟨⟨?_, ?_, ?_⟩, ?_⟩
  · rw [sort_key_amount_zero rev rz hz, sort_key_amount_missing rev rm hm]
  · exact sort_key_amount_zero rev rz hz
  · rw [sort_key_vendor_empty rev rs hs, sort_key_vendor_missing rev rn hn]
  · unfold ComplexQueryEngine.applySorting at h
    simp only [truthyO, Option.getD, ne_eq, decide_not] at h
    split at h
    · split at h
      · rw [Except.ok.injEq] at h
        rw [show ("asc" == "desc") = false from rfl] at h
        subst h
        have hsorted := timsort_sorted_asc l (ComplexQueryEngine.sort_key "amount" false)
        rcases Nat.lt_or_ge j i with hlt | hge
        · exact hlt
        exfalso
        rcases Nat.eq_or_lt_of_le hge with heq | hlt
        · subst heq
          rw [hiz] at hjq
          have hq0 : q = 0 := by injection hjq with h2; exact h2.symm
          exact absurd hq0 (ne_of_gt hq)
        · have hrel := List.pairwise_iff_get.mp hsorted ⟨i, hi⟩ ⟨j, hj⟩ hlt
          rw [sort_key_amount_zero false _ hiz,
            sort_key_amount_pos false _ q hjq (ne_of_gt hq)] at hrel
          simp only [SKey.ble, decide_eq_true_eq, Bool.false_eq_true, if_false] at hrel
          exact not_numTop_le_numOf q hrel
      · simp at h
    · rename_i hcond
      simp at hcond

theorem engine_sort_falsy_key_witness :
    (ComplexQueryEngine.sort_key "amount" true { id := 1, amount := some 0 }
          = ComplexQueryEngine.sort_key "amount" true { id := 3 }
      ∧ ComplexQueryEngine.sort_key "amount" true { id := 1, amount := some 0 }
          = .num (if true then numBot else numTop)
      ∧ ComplexQueryEngine.sort_key "vendor" true { id := 4, vendor := some "" }
          = ComplexQueryEngine.sort_key "vendor" true { id := 5 })
    ∧ (0 : ℕ) < 1 :=
  have happ : ComplexQueryEngine.applySorting
      [{ id := 1, amount := some 0 }, { id := 2, amount := some 3 }]
      ⟨some "amount", some "asc"⟩
      = .ok [{ id := 2, amount := some 3 }, { id := 1, amount := some 0 }] := by
    with_unfolding_all decide
  engine_sort_falsy_key true { id := 1, amount := some 0 } { id := 3 }
    { id := 4, vendor := some "" } { id := 5 }
    [{ id := 1, amount := some 0 }, { id := 2, amount := some 3 }]
    [{ id := 2, amount := some 3 }, { id := 1, amount := some 0 }]
    rfl rfl rfl rfl happ 1 0 (by decide) (by decide) rfl
    3 rfl (by with_unfolding_all decide)

/-- **C1 (code evaluation).**  A malformed date bound does not surface a
distinguishable configuration error: with one record carrying a valid
date and `date_from = "garbage"`, `execute_query` returns an ordinary
success whose data is empty — indistinguishable from "no matches".
(Inside `range_search`, the `ValueError` from `strptime("garbage")` is
caught by the per-record `try` and the record is silently skipped.) -/
theorem execute_query_malformed_bound_silent :
    ComplexQueryEngine.execute_query [{ date := some "2024-01-10" }]
        { date_from := some "garbage" } {}
      = .ok ⟨[], 0, ⟨0, 0, 0, 0⟩, [], [], []⟩ := by
  with_unfolding_all decide

/-- **C3 (code evaluation).**  On the all-distinct amounts `[10, 20, 30]`
the reported mode is `10` (the first value — `statistics.mode` on
Python >= 3.8 no longer raises on ties, so the median fallback in the
source is dead code), not the median `20` required by the claim. -/
theorem calculate_basic_stats_distinct_mode :
    AggregationAlgorithms.calculate_basic_stats [10, 20, 30] = ⟨60, 20, 20, 10⟩
      ∧ (10 : ℚ) ≠ 20 := by
  constructor
  · with_unfolding_all decide
  · with_unfolding_all decide

/-- **C4 (code evaluation).**  With the well-formed bound
`date_from = "2024-01-01"`: a record whose date `"zzz"` is unparsable is
*included* (its raw string is compared lexicographically with the bound),
and when a parsable-dated record precedes it the converted bound is a
`datetime`, so the same comparison raises a `TypeError` out of the
filter. -/
theorem range_search_unparsable_date :
    SearchAlgorithms.range_search [{ date := some "zzz" }] (fun r => r.date.map PyVal.str)
        (some (.str "2024-01-01")) none
      = .ok [{ date := some "zzz" }]
    ∧ SearchAlgorithms.range_search
        [{ date := some "2024-01-10" }, { date := some "zzz" }]
        (fun r => r.date.map PyVal.str) (some (.str "2024-01-01")) none
      = .error .typeError := by
  constructor
  · with_unfolding_all decide
  · with_unfolding_all decide

/-- **C7 counterexample.**  At window size `0` (and a non-empty
sequence, so `len < window` fails), `moving_average` raises
`ZeroDivisionError` instead of returning the `len - 0 + 1` windowed
values the claim describes for "every window size w". -/
theorem moving_average_zero_window :
    AggregationAlgorithms.moving_average [1] 0 = .error .zeroDivisionError
      ∧ (AggregationAlgorithms.moving_average [1] 0).isOk = false := by
  constructor
  · with_unfolding_all decide
  · with_unfolding_all decide

/-- **C7 (amended: window size at least 1).**  For every numeric
sequence and window `w >= 1`: a sequence shorter than the window is
returned unchanged, and otherwise exactly `len - w + 1` values are
returned, the `i`-th being the mean of the window starting at `i`,
rounded to two decimals, in input order. -/
theorem moving_average_spec (data : List ℚ) (w : ℕ) (hw : 1 ≤ w) :
    (data.length < w → AggregationAlgorithms.moving_average data w = .ok data)
    ∧ (w ≤ data.length → ∃ out, AggregationAlgorithms.moving_average data w = .ok out
        ∧ out.length = data.length - w + 1
        ∧ ∀ i (hi : i < out.length),
            out.get ⟨i, hi⟩ = round2 (((data.drop i).take w).sum / w)) := by
  constructor
  · intro hlt
    unfold AggregationAlgorithms.moving_average
    rw [if_pos hlt]
  · intro hle
    unfold AggregationAlgorithms.moving_average
    rw [if_neg (by omega), if_neg (by omega)]
    refine ⟨_, rfl, ?_, ?_⟩
    · simp
    · intro i hi
      simp only [List.length_map, List.length_range] at hi
      simp [List.get_eq_getElem, List.getElem_map, List.getElem_range]

theorem moving_average_spec_witness :
    (([1, 2, 3, 4] : List ℚ).length < 3 →
      AggregationAlgorithms.moving_average [1, 2, 3, 4] 3 = .ok [1, 2, 3, 4])
    ∧ (3 ≤ ([1, 2, 3, 4] : List ℚ).length →
        ∃ out, AggregationAlgorithms.moving_average [1, 2, 3, 4] 3 = .ok out
          ∧ out.length = ([1, 2, 3, 4] : List ℚ).length - 3 + 1
          ∧ ∀ i (hi : i < out.length),
              out.get ⟨i, hi⟩ = round2 (((([1, 2, 3, 4] : List ℚ).drop i).take 3).sum / 3)) :=
  moving_average_spec [1, 2, 3, 4] 3 (by decide)

/-- **C2 counterexample.**  On the odd-length monthly series with
amounts `[2, 4, 6]`, the code splits `[2] / [4, 6]` (floor split, the
*second* half gets the extra element) and reports growth
`(5 - 2)/2*100 = 150`; the claim's split `[2, 4] / [6]` would give
`(6 - 3)/3*100 = 100`.  So the claim's growth value is refuted. -/
theorem calculate_trends_growth_eval :
    (AggregationAlgorithms.calculate_trends
        [⟨"Jan 2024", 2, "2024-01"⟩, ⟨"Feb 2024", 4, "2024-02"⟩,
         ⟨"Mar 2024", 6, "2024-03"⟩]).growth_rate = 150
    ∧ ((150 : ℚ) = round2 ((6 - (2 + 4) / 2) / ((2 + 4) / 2) * 100) → False) := by
  constructor
  · with_unfolding_all decide
  · with_unfolding_all decide

/-- **C2 (amended: the second half gets the extra element).**  For every
monthly series of odd length `n >= 2`, `calculate_trends` splits the
amount series at `n / 2`, so the first half has `n / 2` elements and the
second half `n / 2 + 1` (the extra one), and the reported growth rate is
`(secondMean - firstMean) / firstMean * 100` — rounded to two decimals —
when `firstMean > 0`, else `0`. -/
theorem calculate_trends_odd_split (monthly_data : List AggregationAlgorithms.MonthlyRow)
    (h2 : 2 ≤ monthly_data.length) (hodd : monthly_data.length % 2 = 1) :
    ((monthly_data.map AggregationAlgorithms.MonthlyRow.amount).take
        (monthly_data.length / 2)).length = monthly_data.length / 2
    ∧ ((monthly_data.map AggregationAlgorithms.MonthlyRow.amount).drop
        (monthly_data.length / 2)).length = monthly_data.length / 2 + 1
    ∧ (AggregationAlgorithms.calculate_trends monthly_data).growth_rate
      = round2 (
          (fun fh sh : List ℚ =>
            if 0 < fh.sum / fh.length then
              (sh.sum / sh.length - fh.sum / fh.length) / (fh.sum / fh.length) * 100
            else 0)
          ((monthly_data.map AggregationAlgorithms.MonthlyRow.amount).take
            (monthly_data.length / 2))
          ((monthly_data.map AggregationAlgorithms.MonthlyRow.amount).drop
            (monthly_data.length / 2))) := by
  have hlen : (monthly_data.map AggregationAlgorithms.MonthlyRow.amount).length
      = monthly_data.length := List.length_map _ _
  refine ⟨?_, ?_, ?_⟩
  · rw [List.length_take, hlen]
    omega
  · rw [List.length_drop, hlen]
    omega
  · have hfh : (monthly_data.map AggregationAlgorithms.MonthlyRow.amount).take
        (monthly_data.length / 2) ≠ [] := by
      apply List.ne_nil_of_length_pos
      rw [List.length_take, hlen]
      omega
    have hsh : (monthly_data.map AggregationAlgorithms.MonthlyRow.amount).drop
        (monthly_data.length / 2) ≠ [] := by
      apply List.ne_nil_of_length_pos
      rw [List.length_drop, hlen]
      omega
    unfold AggregationAlgorithms.calculate_trends
    rw [if_neg (by omega)]
    simp only [hlen, if_pos hfh, if_pos hsh]

theorem calculate_trends_odd_split_witness :
    (([⟨"a", 1, "k1"⟩, ⟨"b", 2, "k2"⟩, ⟨"c", 3, "k3"⟩]
          : List AggregationAlgorithms.MonthlyRow).map
        AggregationAlgorithms.MonthlyRow.amount |>.take
        (([⟨"a", 1, "k1"⟩, ⟨"b", 2, "k2"⟩, ⟨"c", 3, "k3"⟩]
          : List AggregationAlgorithms.MonthlyRow).length / 2)).length
      = ([⟨"a", 1, "k1"⟩, ⟨"b", 2, "k2"⟩, ⟨"c", 3, "k3"⟩]
          : List AggregationAlgorithms.MonthlyRow).length / 2
    ∧ (([⟨"a", 1, "k1"⟩, ⟨"b", 2, "k2"⟩, ⟨"c", 3, "k3"⟩]
          : List AggregationAlgorithms.MonthlyRow).map
        AggregationAlgorithms.MonthlyRow.amount |>.drop
        (([⟨"a", 1, "k1"⟩, ⟨"b", 2, "k2"⟩, ⟨"c", 3, "k3"⟩]
          : List AggregationAlgorithms.MonthlyRow).length / 2)).length
      = ([⟨"a", 1, "k1"⟩, ⟨"b", 2, "k2"⟩, ⟨"c", 3, "k3"⟩]
          : List AggregationAlgorithms.MonthlyRow).length / 2 + 1
    ∧ (AggregationAlgorithms.calculate_trends
        [⟨"a", 1, "k1"⟩, ⟨"b", 2, "k2"⟩, ⟨"c", 3, "k3"⟩]).growth_rate
      = round2 (
          (fun fh sh : List ℚ =>
            if 0 < fh.sum / fh.length then
              (sh.sum / sh.length - fh.sum / fh.length) / (fh.sum / fh.length) * 100
            else 0)
          (([⟨"a", 1, "k1"⟩, ⟨"b", 2, "k2"⟩, ⟨"c", 3, "k3"⟩]
              : List AggregationAlgorithms.MonthlyRow).map
            AggregationAlgorithms.MonthlyRow.amount |>.take
            (([⟨"a", 1, "k1"⟩, ⟨"b", 2, "k2"⟩, ⟨"c", 3, "k3"⟩]
              : List AggregationAlgorithms.MonthlyRow).length / 2))
          (([⟨"a", 1, "k1"⟩, ⟨"b", 2, "k2"⟩, ⟨"c", 3, "k3"⟩]
              : List AggregationAlgorithms.MonthlyRow).map
            AggregationAlgorithms.MonthlyRow.amount |>.drop
            (([⟨"a", 1, "k1"⟩, ⟨"b", 2, "k2"⟩, ⟨"c", 3, "k3"⟩]
              : List AggregationAlgorithms.MonthlyRow).length / 2))) :=
  calculate_trends_odd_split
    [⟨"a", 1, "k1"⟩, ⟨"b", 2, "k2"⟩, ⟨"c", 3, "k3"⟩] (by decide) (by decide)

/-! ## Quicksort -/

theorem filter_three_perm {α κ : Type} [LinearOrder κ] (key_func : α → κ) (pk : κ)
    (arr : List α) :
    List.Perm (arr.filter (fun x => decide (key_func x < pk))
      ++ (arr.filter (fun x => decide (key_func x = pk))
        ++ arr.filter (fun x => decide (pk < key_func x)))) arr := by
  have h1 := List.filter_append_perm (fun x => decide (key_func x < pk)) arr
  have h2 := List.filter_append_perm (fun x => decide (key_func x = pk))
    (arr.filter (fun x => !decide (key_func x < pk)))
  have e1 : (arr.filter (fun x => !decide (key_func x < pk))).filter
      (fun x => decide (key_func x = pk)) = arr.filter (fun x => decide (key_func x = pk)) := by
    rw [List.filter_filter]
    apply List.filter_congr
    intro x _
    by_cases h : key_func x = pk
    · simp [h, lt_irrefl]
    · simp [h]
  have e2 : (arr.filter (fun x => !decide (key_func x < pk))).filter
      (fun x => !decide (key_func x = pk)) = arr.filter (fun x => decide (pk < key_func x)) := by
    rw [List.filter_filter]
    apply List.filter_congr
    intro x _
    rcases lt_trichotomy (key_func x) pk with h | h | h
    · simp [h, ne_of_lt, not_lt_of_gt, asymm]
    · simp [h, lt_irrefl]
    · simp [h, ne_of_gt, not_lt_of_gt]
  rw [e1, e2] at h2
  exact ((List.Perm.refl _).append h2).trans h1

theorem quicksort_perm {α κ : Type} [LinearOrder κ] (key_func : α → κ) :
    ∀ arr : List α, List.Perm (SortingAlgorithms.quicksort key_func arr) arr := by
  have H : ∀ (n : ℕ) (arr : List α), arr.length ≤ n →
      List.Perm (SortingAlgorithms.quicksort key_func arr) arr := by
    intro n
    induction n with
    | zero =>
      intro arr hlen
      rw [SortingAlgorithms.quicksort]
      rw [dif_pos (by omega)]
    | succ n ih =>
      intro arr hlen
      rw [SortingAlgorithms.quicksort]
      split
      · exact List.Perm.refl _
      · rename_i hgt
        rw [List.append_assoc]
        have hb2 : arr.length / 2 < arr.length := by omega
        have hp : arr.get ⟨arr.length / 2, hb2⟩ ∈ arr := arr.get_mem _ _
        have hnotall : ∀ (p : α → Bool), p (arr.get ⟨arr.length / 2, hb2⟩) = false →
            (arr.filter p).length ≤ n := by
          intro p hfalse
          refine Nat.le_of_lt_succ (Nat.lt_of_lt_of_le ?_ hlen)
          refine Nat.lt_of_le_of_ne (List.length_filter_le _ _) (fun hcontra => ?_)
          have hall := List.filter_length_eq_length.mp hcontra
          have := hall _ hp
          rw [hfalse] at this
          cases this
        have hleft := ih (arr.filter
            (fun x => decide (key_func x < key_func (arr.get ⟨arr.length / 2, hb2⟩))))
          (hnotall _ (by simp))
        have hright := ih (arr.filter
            (fun x => decide (key_func (arr.get ⟨arr.length / 2, hb2⟩) < key_func x)))
          (hnotall _ (by simp))
        exact ((hleft.append ((List.Perm.refl _).append hright)).trans
          (filter_three_perm key_func _ arr))
  exact fun arr => H arr.length arr (Nat.le_refl _)

theorem mem_quicksort {α κ : Type} [LinearOrder κ] {key_func : α → κ} {arr : List α} {x : α} :
    x ∈ SortingAlgorithms.quicksort key_func arr ↔ x ∈ arr :=
  (quicksort_perm key_func arr).mem_iff

theorem quicksort_pairwise {α κ : Type} [LinearOrder κ] (key_func : α → κ) :
    ∀ arr : List α,
      (SortingAlgorithms.quicksort key_func arr).Pairwise
        (fun a b => key_func a ≤ key_func b) := by
  have H : ∀ (n : ℕ) (arr : List α), arr.length ≤ n →
      (SortingAlgorithms.quicksort key_func arr).Pairwise
        (fun a b => key_func a ≤ key_func b) := by
    intro n
    induction n with
    | zero =>
      intro arr hlen
      rw [SortingAlgorithms.quicksort, dif_pos (by omega)]
      have : arr = [] := List.length_eq_zero.mp (by omega)
      simp [this]
    | succ n ih =>
      intro arr hlen
      rw [SortingAlgorithms.quicksort]
      split
      · rename_i hle1
        interval_cases h : arr.length
        · have : arr = [] := List.length_eq_zero.mp h
          simp [this]
        · rcases arr with _ | ⟨a, _ | ⟨b, t⟩⟩ <;> simp_all
      · rename_i hgt
        have hb2 : arr.length / 2 < arr.length := by omega
        have hp : arr.get ⟨arr.length / 2, hb2⟩ ∈ arr := arr.get_mem _ _
        have hnotall : ∀ (p : α → Bool), p (arr.get ⟨arr.length / 2, hb2⟩) = false →
            (arr.filter p).length ≤ n := by
          intro p hfalse
          refine Nat.le_of_lt_succ (Nat.lt_of_lt_of_le ?_ hlen)
          refine Nat.lt_of_le_of_ne (List.length_filter_le _ _) (fun hcontra => ?_)
          have hall := List.filter_length_eq_length.mp hcontra
          have := hall _ hp
          rw [hfalse] at this
          cases this
        rw [List.append_assoc, List.pairwise_append]
        refine ⟨ih (arr.filter
            (fun x => decide (key_func x < key_func (arr.get ⟨arr.length / 2, hb2⟩))))
          (hnotall _ (by simp)), ?_, ?_⟩
        · rw [List.pairwise_append]
          refine ⟨?_, ih (arr.filter
              (fun x => decide (key_func (arr.get ⟨arr.length / 2, hb2⟩) < key_func x)))
            (hnotall _ (by simp)), ?_⟩
          · apply List.pairwise_of_forall_mem_list
            intro a ha b hb
            rw [List.mem_filter] at ha hb
            rw [of_decide_eq_true ha.2, of_decide_eq_true hb.2]
          · intro a ha b hb
            rw [List.mem_filter] at ha
            have hb2 := (List.mem_filter.mp (mem_quicksort.mp hb)).2
            rw [of_decide_eq_true ha.2]
            exact le_of_lt (of_decide_eq_true hb2)
        · intro a ha b hb
          have ha2 := (List.mem_filter.mp (mem_quicksort.mp ha)).2
          rcases List.mem_append.mp hb with hb | hb
          · have hb2 := (List.mem_filter.mp hb).2
            rw [of_decide_eq_true hb2]
            exact le_of_lt (of_decide_eq_true ha2)
          · have hb2 := (List.mem_filter.mp (mem_quicksort.mp hb)).2
            exact le_of_lt (lt_trans (of_decide_eq_true ha2) (of_decide_eq_true hb2))
  exact fun arr => H arr.length arr (Nat.le_refl _)

/-- **C8.**  For every finite list and key function into a linear order,
`quicksort` terminates (it is a total function here) and returns a
permutation of its input that is non-decreasing in the key, with all
elements of equal key adjacent; the input list is not mutated (the
embedding is pure, as is the Python code, which only builds new lists). -/
theorem quicksort_correct {α κ : Type} [LinearOrder κ] (key_func : α → κ) (arr : List α) :
    List.Perm (SortingAlgorithms.quicksort key_func arr) arr
    ∧ (SortingAlgorithms.quicksort key_func arr).Pairwise
        (fun a b => key_func a ≤ key_func b)
    ∧ ∀ i j k : Fin (SortingAlgorithms.quicksort key_func arr).length,
        i ≤ j → j ≤ k →
        key_func ((SortingAlgorithms.quicksort key_func arr).get i)
          = key_func ((SortingAlgorithms.quicksort key_func arr).get k) →
        key_func ((SortingAlgorithms.quicksort key_func arr).get j)
          = key_func ((SortingAlgorithms.quicksort key_func arr).get i) := by
  refine ⟨quicksort_perm key_func arr, quicksort_pairwise key_func arr, ?_⟩
  intro i j k hij hjk hik
  have hpw := quicksort_pairwise key_func arr
  rcases Fin.lt_or_eq_of_le hij with hlt | heq
  · have h1 := List.pairwise_iff_get.mp hpw i j hlt
    rcases Fin.lt_or_eq_of_le hjk with hlt2 | heq2
    · have h2 := List.pairwise_iff_get.mp hpw j k hlt2
      rw [hik] at h1
      rw [hik]
      exact le_antisymm h2 h1
    · rw [heq2, ← hik]
  · rw [← heq]

/-! ## Grouped aggregation: the `defaultdict` accumulator -/

theorem numOf_le_iff {a b : ℚ} : numOf a ≤ numOf b ↔ a ≤ b := by
  simp [numOf]

theorem lookup_updGroup_self (acc : List (String × ℕ × ℚ)) (v : String) (a : ℚ) :
    List.lookup v (AggregationAlgorithms.updGroup acc v a)
      = some (match List.lookup v acc with
          | none => (1, a)
          | some (c, t) => (c + 1, t + a)) := by
  induction acc with
  | nil => simp [AggregationAlgorithms.updGroup, List.lookup]
  | cons e rest ih =>
    rcases e with ⟨k, c, t⟩
    rw [AggregationAlgorithms.updGroup]
    by_cases hk : k = v
    · subst hk
      simp [List.lookup]
    · rw [if_neg hk]
      have hvk : (v == k) = false := by simp [Ne.symm hk]
      simp [List.lookup, hvk, ih]

theorem lookup_updGroup_ne (acc : List (String × ℕ × ℚ)) {v w : String} (a : ℚ)
    (hne : w ≠ v) :
    List.lookup w (AggregationAlgorithms.updGroup acc v a) = List.lookup w acc := by
  induction acc with
  | nil =>
    have hwv : (w == v) = false := by simp [hne]
    simp [AggregationAlgorithms.updGroup, List.lookup, hwv]
  | cons e rest ih =>
    rcases e with ⟨k, c, t⟩
    rw [AggregationAlgorithms.updGroup]
    by_cases hk : k = v
    · subst hk
      have hwk : (w == k) = false := by simp [hne]
      simp [List.lookup, hwk]
    · rw [if_neg hk]
      by_cases hw : w = k
      · subst hw
        simp [List.lookup]
      · have hwk : (w == k) = false := by simp [hw]
        simp [List.lookup, hwk, ih]

theorem updGroup_keys (acc : List (String × ℕ × ℚ)) (v : String) (a : ℚ) :
    (AggregationAlgorithms.updGroup acc v a).map Prod.fst
      = if v ∈ acc.map Prod.fst then acc.map Prod.fst else acc.map Prod.fst ++ [v] := by
  induction acc with
  | nil => simp [AggregationAlgorithms.updGroup]
  | cons e rest ih =>
    rcases e with ⟨k, c, t⟩
    rw [AggregationAlgorithms.updGroup]
    by_cases hk : k = v
    · subst hk
      simp
    · rw [if_neg hk]
      simp only [List.map_cons, List.mem_cons]
      rw [ih]
      by_cases hv : v ∈ rest.map Prod.fst
      · rw [if_pos hv, if_pos (Or.inr hv)]
      · rw [if_neg hv, if_neg (by rintro (h | h); exact hk h.symm; exact hv h)]
        simp

theorem lookup_isSome_iff_mem (acc : List (String × ℕ × ℚ)) (v : String) :
    (List.lookup v acc).isSome = true ↔ v ∈ acc.map Prod.fst := by
  induction acc with
  | nil => simp [List.lookup]
  | cons e rest ih =>
    rcases e with ⟨k, c, t⟩
    by_cases hv : v = k
    · subst hv
      simp [List.lookup]
    · have hvk : (v == k) = false := by simp [hv]
      simp [List.lookup, hvk, ih, hv]

theorem lookup_of_mem_nodup (acc : List (String × ℕ × ℚ))
    (hnd : (acc.map Prod.fst).Nodup) :
    ∀ e ∈ acc, List.lookup e.1 acc = some e.2 := by
  induction acc with
  | nil => simp
  | cons f rest ih =>
    rcases f with ⟨k, p⟩
    intro e he
    rw [List.map_cons, List.nodup_cons] at hnd
    rcases List.mem_cons.mp he with rfl | he
    · simp [List.lookup]
    · have hmem : e.1 ∈ rest.map Prod.fst := List.mem_map_of_mem Prod.fst he
      have hne : e.1 ≠ k := fun hcontra => hnd.1 (hcontra ▸ hmem)
      have hek : (e.1 == k) = false := by simp [hne]
      simp only [List.lookup, hek]
      exact ih hnd.2 e he

/-- Invariant of the grouping fold: after folding `rs` into an
accumulator faithful to `seen`, the accumulator is faithful to
`seen ++ rs` — keys stay distinct, and the entry of each key holds the
count and amount-sum of its group. -/
theorem foldl_updGroup_lookup (key : Record → String) (amt : Record → ℚ) :
    ∀ (rs seen : List Record) (acc : List (String × ℕ × ℚ)),
    (acc.map Prod.fst).Nodup →
    (∀ v, List.lookup v acc =
      (if (seen.filter (fun r => key r = v)).length = 0 then none
       else some ((seen.filter (fun r => key r = v)).length,
         ((seen.filter (fun r => key r = v)).map amt).sum))) →
    ((rs.foldl (fun a r => AggregationAlgorithms.updGroup a (key r) (amt r)) acc).map
        Prod.fst).Nodup
    ∧ (∀ v, List.lookup v
        (rs.foldl (fun a r => AggregationAlgorithms.updGroup a (key r) (amt r)) acc) =
      (if ((seen ++ rs).filter (fun r => key r = v)).length = 0 then none
       else some (((seen ++ rs).filter (fun r => key r = v)).length,
         (((seen ++ rs).filter (fun r => key r = v)).map amt).sum))) := by
  intro rs
  induction rs with
  | nil =>
    intro seen acc hnd hlook
    simp only [List.foldl_nil, List.append_nil]
    exact ⟨hnd, hlook⟩
  | cons r rs ih =>
    intro seen acc hnd hlook
    have hstep := ih (seen ++ [r]) (AggregationAlgorithms.updGroup acc (key r) (amt r)) ?_ ?_
    · rw [List.foldl_cons]
      refine ⟨hstep.1, fun v => ?_⟩
      have := hstep.2 v
      rwa [List.append_assoc, List.singleton_append] at this
    · rw [updGroup_keys]
      split
      · exact hnd
      · rename_i hnotmem
        rw [List.nodup_append]
        exact ⟨hnd, List.nodup_singleton _, by simpa using hnotmem⟩
    · intro v
      by_cases hv : v = key r
      · subst hv
        rw [lookup_updGroup_self, hlook (key r)]
        have hfilter : (seen ++ [r]).filter (fun x => decide (key x = key r))
            = seen.filter (fun x => decide (key x = key r)) ++ [r] := by
          rw [List.filter_append]
          simp
        rw [hfilter]
        by_cases hzero : (seen.filter (fun x => decide (key x = key r))).length = 0
        · rw [if_pos hzero]
          have hnil : seen.filter (fun x => decide (key x = key r)) = [] :=
            List.length_eq_zero.mp hzero
          rw [if_neg (by simp [hnil])]
          simp [hnil]
        · rw [if_neg hzero, if_neg (by simp)]
          simp [List.length_append, List.map_append, List.sum_append]
      · rw [lookup_updGroup_ne _ _ hv, hlook v]
        have hfilter : (seen ++ [r]).filter (fun x => decide (key x = v))
            = seen.filter (fun x => decide (key x = v)) := by
          rw [List.filter_append]
          simp [Ne.symm hv]
        rw [hfilter]

/-- The rows built from a faithful accumulator and sorted descending by
total satisfy the vendor-aggregation contract. -/
theorem vendor_rows_spec (receipts : List Record) (acc : List (String × ℕ × ℚ))
    (hnd : (acc.map Prod.fst).Nodup)
    (hlook : ∀ v, List.lookup v acc =
      (if (receipts.filter (fun r => AggregationAlgorithms.vendorKey r = v)).length = 0
       then none
       else some ((receipts.filter
           (fun r => AggregationAlgorithms.vendorKey r = v)).length,
         ((receipts.filter (fun r => AggregationAlgorithms.vendorKey r = v)).map
           AggregationAlgorithms.amountOf).sum))) :
    (((SortingAlgorithms.timsort (acc.map (fun e =>
        ({ vendor := e.1, count := e.2.1, total := round2 e.2.2,
           average := if 0 < e.2.1 then round2 (e.2.2 / e.2.1) else 0 }
          : AggregationAlgorithms.VendorRow)))
        (fun x => .num (numOf x.total)) true)).map
        AggregationAlgorithms.VendorRow.vendor).Nodup
    ∧ (∀ v, v ∈ ((SortingAlgorithms.timsort (acc.map (fun e =>
          ({ vendor := e.1, count := e.2.1, total := round2 e.2.2,
             average := if 0 < e.2.1 then round2 (e.2.2 / e.2.1) else 0 }
            : AggregationAlgorithms.VendorRow)))
          (fun x => .num (numOf x.total)) true)).map
          AggregationAlgorithms.VendorRow.vendor
        ↔ v ∈ receipts.map AggregationAlgorithms.vendorKey)
    ∧ (∀ row ∈ SortingAlgorithms.timsort (acc.map (fun e =>
          ({ vendor := e.1, count := e.2.1, total := round2 e.2.2,
             average := if 0 < e.2.1 then round2 (e.2.2 / e.2.1) else 0 }
            : AggregationAlgorithms.VendorRow)))
          (fun x => .num (numOf x.total)) true,
        row.count = (receipts.filter
          (fun r => AggregationAlgorithms.vendorKey r = row.vendor)).length
        ∧ 0 < row.count
        ∧ row.total = round2 (((receipts.filter
            (fun r => AggregationAlgorithms.vendorKey r = row.vendor)).map
              AggregationAlgorithms.amountOf).sum)
        ∧ row.average = round2 ((((receipts.filter
            (fun r => AggregationAlgorithms.vendorKey r = row.vendor)).map
              AggregationAlgorithms.amountOf).sum) / row.count))
    ∧ (SortingAlgorithms.timsort (acc.map (fun e =>
          ({ vendor := e.1, count := e.2.1, total := round2 e.2.2,
             average := if 0 < e.2.1 then round2 (e.2.2 / e.2.1) else 0 }
            : AggregationAlgorithms.VendorRow)))
          (fun x => .num (numOf x.total)) true).Pairwise
        (fun a b => b.total ≤ a.total) := by
  have hperm := timsort_perm (acc.map (fun e =>
      ({ vendor := e.1, count := e.2.1, total := round2 e.2.2,
         average := if 0 < e.2.1 then round2 (e.2.2 / e.2.1) else 0 }
        : AggregationAlgorithms.VendorRow)))
    (fun x => .num (numOf x.total)) true
  have hmapv : ((acc.map (fun e =>
      ({ vendor := e.1, count := e.2.1, total := round2 e.2.2,
         average := if 0 < e.2.1 then round2 (e.2.2 / e.2.1) else 0 }
        : AggregationAlgorithms.VendorRow))).map
      AggregationAlgorithms.VendorRow.vendor) = acc.map Prod.fst := by
    rw [List.map_map]
    rfl
  refine ⟨?_, ?_, ?_, ?_⟩
  · rw [(hperm.map AggregationAlgorithms.VendorRow.vendor).nodup_iff, hmapv]
    exact hnd
  · intro v
    rw [(hperm.map AggregationAlgorithms.VendorRow.vendor).mem_iff, hmapv,
      ← lookup_isSome_iff_mem, hlook v]
    by_cases hzero : (receipts.filter
        (fun r => AggregationAlgorithms.vendorKey r = v)).length = 0
    · rw [if_pos hzero]
      have hnil := List.length_eq_zero.mp hzero
      rw [List.filter_eq_nil_iff] at hnil
      simp only [Option.isSome_none, Bool.false_eq_true, false_iff]
      intro hcontra
      rcases List.mem_map.mp hcontra with ⟨r, hr, hkey⟩
      have hne := hnil r hr
      simp only [decide_eq_true_eq] at hne
      exact hne hkey
    · rw [if_neg hzero]
      simp only [Option.isSome_some, true_iff]
      have hpos := Nat.pos_of_ne_zero hzero
      rw [List.length_pos] at hpos
      rcases List.exists_mem_of_ne_nil _ hpos with ⟨r, hr⟩
      rw [List.mem_filter] at hr
      exact List.mem_map.mpr ⟨r, hr.1, by simpa using hr.2⟩
  · intro row hrow
    rw [mem_timsort] at hrow
    rcases List.mem_map.mp hrow with ⟨e, he, heq⟩
    obtain ⟨v0, c0, t0⟩ := e
    have hle := lookup_of_mem_nodup acc hnd _ he
    rw [hlook v0] at hle
    split at hle
    · simp at hle
    · rename_i hzero
      rw [Option.some.injEq] at hle
      have hc : (receipts.filter
          (fun r => AggregationAlgorithms.vendorKey r = v0)).length = c0 := by
        have := congrArg Prod.fst hle
        simpa using this
      have ht : ((receipts.filter
          (fun r => AggregationAlgorithms.vendorKey r = v0)).map
            AggregationAlgorithms.amountOf).sum = t0 := by
        have := congrArg (fun p => p.2) hle
        simpa using this
      have hcpos : 0 < c0 := by
        rw [← hc]
        exact Nat.pos_of_ne_zero hzero
      have hv : row.vendor = v0 := by rw [← heq]
      have hcount : row.count = c0 := by rw [← heq]
      have htotal : row.total = round2 t0 := by rw [← heq]
      have havg : row.average = if 0 < c0 then round2 (t0 / (c0 : ℚ)) else 0 := by
        rw [← heq]
      refine ⟨?_, ?_, ?_, ?_⟩
      · rw [hcount, hv, hc]
      · rw [hcount]
        exact hcpos
      · rw [htotal, hv, ht]
      · rw [havg, hv, hcount, if_pos hcpos, ht]
  · refine (timsort_sorted_desc _ _).imp ?_
    intro a b hab
    rw [SKey.ble_num_iff, numOf_le_iff] at hab
    exact hab

/-- **C9 (amended: totals and averages carry two-decimal rounding).**
`vendor_aggregation` produces exactly one row per distinct vendor key
(a missing vendor grouped under `"Unknown"`); each row's count is its
group size, its total is the group's amount sum rounded to two
decimals, its average is the group's amount sum divided by its count
and then rounded to two decimals, and the rows are ordered by
non-increasing total. -/
theorem vendor_aggregation_spec (receipts : List Record) :
    ((AggregationAlgorithms.vendor_aggregation receipts).map
        AggregationAlgorithms.VendorRow.vendor).Nodup
    ∧ (∀ v, v ∈ (AggregationAlgorithms.vendor_aggregation receipts).map
          AggregationAlgorithms.VendorRow.vendor
        ↔ v ∈ receipts.map AggregationAlgorithms.vendorKey)
    ∧ (∀ row ∈ AggregationAlgorithms.vendor_aggregation receipts,
        row.count = (receipts.filter
          (fun r => AggregationAlgorithms.vendorKey r = row.vendor)).length
        ∧ 0 < row.count
        ∧ row.total = round2 (((receipts.filter
            (fun r => AggregationAlgorithms.vendorKey r = row.vendor)).map
              AggregationAlgorithms.amountOf).sum)
        ∧ row.average = round2 ((((receipts.filter
            (fun r => AggregationAlgorithms.vendorKey r = row.vendor)).map
              AggregationAlgorithms.amountOf).sum) / row.count))
    ∧ (AggregationAlgorithms.vendor_aggregation receipts).Pairwise
        (fun a b => b.total ≤ a.total) := by
  have hinv := foldl_updGroup_lookup AggregationAlgorithms.vendorKey
    AggregationAlgorithms.amountOf receipts [] []
    (by simp) (fun v => by simp [List.lookup])
  simp only [List.nil_append] at hinv
  simp only [AggregationAlgorithms.vendor_aggregation]
  exact vendor_rows_spec receipts _ hinv.1 hinv.2

/-- **C9 counterexample.**  Three `"A"` receipts with amounts `1, 0` and
missing: the single row is `{count 3, total 1, average 0.33}`, but
`1 / 3 ≠ 0.33`, so the row's average does not equal its total divided by
its count — it is that quotient rounded to two decimals. -/
theorem vendor_aggregation_average_eval :
    AggregationAlgorithms.vendor_aggregation
        [{ vendor := some "A", amount := some 1 }, { vendor := some "A", amount := some 0 },
         { vendor := some "A" }]
      = [⟨"A", 3, 1, 33/100⟩]
    ∧ ((33 : ℚ)/100 = 1/3 → False) := by
  constructor
  · with_unfolding_all decide
  · with_unfolding_all decide
